import Mathlib

/-!
# Verification of the DAW macros-hub XML parse/generate/merge engine

Shallow embedding of the macro codec engine of `src/macros`:

* the XML element trees manipulated through `xml.etree.ElementTree` are
  embedded as the inductive `Elem` (tag, attributes in insertion order,
  children in document order);
* `ElementTree`'s mutating operations (`find` on a direct-child path,
  `findall`, `SubElement`, `append`, `set`) become persistent-tree
  combinators `applyM` / `applyMC` (modify the first child matching a
  predicate, in the second form creating and appending a fresh node when no
  child matches) — exactly the shapes used by the source;
* `ET.fromstring` (Python standard library, outside this repository) is the
  boundary of the embedding: a text that may or may not be well-formed XML
  is represented by its parse outcome `Option Elem`, and a stored snippet
  string by `Snippet` (absent / present-but-unparseable / parsed).

The merge generator is `upload_user_file_for_download`
(`src/macros/views.py` lines 705–763), the description synthesiser is the
inline block of `save_selected_macros` (`views.py` 374–381), and the upload
validation is `KeyCommandsFileForm.clean_file` (`src/macros/forms.py`
56–98).  The standalone generator and the extraction/resolution pipeline
live in `src/macros/utils.py`, which is not part of the analysed sources;
those two operations are modelled from the specification and marked so.
-/

/-- An XML element as exposed by ElementTree: a tag, an attribute
dictionary (kept in insertion order; lookup takes the first binding), and
the list of child elements in document order.  Text content is never read
or written by the analysed code and is omitted. -/
inductive Elem : Type where
  | mk (tag : String) (attrs : List (String × String)) (children : List Elem)

/-- The tag of an element. -/
def Elem.tag : Elem → String
  | .mk t _ _ => t

/-- The attribute list of an element. -/
def Elem.attrs : Elem → List (String × String)
  | .mk _ a _ => a

/-- The children of an element, in document order. -/
def Elem.children : Elem → List Elem
  | .mk _ _ c => c

mutual

/-- Structural equality test on elements. -/
def Elem.beq : Elem → Elem → Bool
  | .mk t1 a1 c1, .mk t2 a2 c2 => t1 == t2 && a1 == a2 && Elem.beqChildren c1 c2

/-- Structural equality test on child lists. -/
def Elem.beqChildren : List Elem → List Elem → Bool
  | [], [] => true
  | x :: xs, y :: ys => Elem.beq x y && Elem.beqChildren xs ys
  | _, _ => false

end

mutual

def Elem.beq_iff : ∀ e1 e2 : Elem, Elem.beq e1 e2 = true ↔ e1 = e2
  | .mk t1 a1 c1, .mk t2 a2 c2 => by
    simp [Elem.beq, Elem.beqChildren_iff c1 c2, and_assoc]

def Elem.beqChildren_iff : ∀ l1 l2 : List Elem,
    Elem.beqChildren l1 l2 = true ↔ l1 = l2
  | [], [] => by simp [Elem.beqChildren]
  | [], _ :: _ => by simp [Elem.beqChildren]
  | _ :: _, [] => by simp [Elem.beqChildren]
  | x :: xs, y :: ys => by
    simp [Elem.beqChildren, Elem.beq_iff x y, Elem.beqChildren_iff xs ys]

end

instance : DecidableEq Elem := fun e1 e2 =>
  decidable_of_iff (Elem.beq e1 e2 = true) (Elem.beq_iff e1 e2)

/-- `elem.attrib.get(k)`: first binding of attribute `k`, if any. -/
def attrOf (e : Elem) (k : String) : Option String :=
  (e.attrs.find? (fun p => p.1 == k)).map Prod.snd

/-- `find('list[@name=nm]')` child test: a `list` element whose `name`
attribute equals `nm`. -/
def isNamedList (nm : String) (e : Elem) : Bool :=
  e.tag == "list" && attrOf e "name" == some nm

/-- `find('string[@name="Name"]')` child test. -/
def isNameString (e : Elem) : Bool :=
  e.tag == "string" && attrOf e "name" == some "Name"

/-- The loop of `views.py` 720–724: an `item` whose first `string` child
named `Name` carries value `"Macro"`. -/
def isMacroItem (e : Elem) : Bool :=
  e.tag == "item" &&
    match e.children.find? isNameString with
    | some s => attrOf s "value" == some "Macro"
    | none => false

section ListCombinators

variable {α : Type _}

/-- Replace the first element satisfying `p` by its image under `g`;
leave the list unchanged when no element matches.  This is the effect of
`found = parent.find(path); mutate(found)` guarded by `found is not None`. -/
def applyM (p : α → Bool) (g : α → α) : List α → List α
  | [] => []
  | a :: l => if p a then g a :: l else a :: applyM p g l

/-- Replace the first element satisfying `p` by its image under `g`;
append the freshly created `mk` at the end when no element matches.  This
is `found = parent.find(path); if found is None: found = SubElement(...)`
followed by mutation of `found`. -/
def applyMC (p : α → Bool) (g : α → α) (mk : α) : List α → List α
  | [] => [mk]
  | a :: l => if p a then g a :: l else a :: applyMC p g mk l

/-- Drop the first element satisfying `p`, if any. -/
def eraseFirst (p : α → Bool) : List α → List α
  | [] => []
  | a :: l => if p a then l else a :: eraseFirst p l

end ListCombinators

/-! ## Macro records and snippets

A persisted `Macro` row carries `name`, `description`, `key_binding`,
`commands_json`, and the two raw snippet text fields `xml_snippet` and
`reference_snippet`.  The merge generator only ever uses a snippet through
Python truthiness (`if macro.xml_snippet:`) and `ET.fromstring`, so a
snippet is embedded as its parse outcome. -/

/-- A stored raw snippet, at the `ET.fromstring` boundary: `absent` is the
empty/falsy string, `bad` a non-empty text that raises `ET.ParseError`,
`good e` a text that parses to the element `e`. -/
inductive Snippet : Type where
  | absent : Snippet
  | bad : Snippet
  | good (e : Elem) : Snippet
deriving DecidableEq

/-- A sub-command of a macro: `{'name': ..., 'params': ...}` entries of
`commands_json`; a missing `name` key is the empty string (Python
`cmd.get('name', '')`). -/
structure SubCommand : Type where
  name : String
  params : List (String × String)
deriving DecidableEq

/-- A persisted macro record, restricted to the fields the codec engine
reads. -/
structure MacroRecord : Type where
  name : String
  description : String
  commands : List SubCommand
  key_bindings : List String
  xml_snippet : Snippet
  reference_snippet : Snippet
deriving DecidableEq

/-! ## The merge generator (`upload_user_file_for_download`, views.py 705–763) -/

/-- `views.py` 754–755 and 757–759: the synthesized fallback reference,
`<item><string name="Name" value=nm/></item>`. -/
def synthRef (nm : String) : Elem :=
  .mk "item" [] [.mk "string" [("name", "Name"), ("value", nm)] []]

/-- The element appended to the Commands list for one record
(`views.py` 747–759): the re-parsed `reference_snippet` when it parses,
else the synthesized fallback reference. -/
def refElem (r : MacroRecord) : Elem :=
  match r.reference_snippet with
  | .good e => e
  | _ => synthRef r.name

/-- The definition element contributed by one record (`views.py`
739–744): the re-parsed `xml_snippet` when present and parseable, nothing
otherwise (no fallback for definitions). -/
def goodDef (r : MacroRecord) : Option Elem :=
  match r.xml_snippet with
  | .good e => some e
  | _ => none

/-- `views.py` 709–711: the Macros list created when absent
(`SubElement` then `set("name", ...)`, `set("type", ...)`). -/
def newMacrosList (defs : List Elem) : Elem :=
  .mk "list" [("name", "Macros"), ("type", "list")] defs

/-- `views.py` 732–734: the Commands list created when absent. -/
def newCommandsList (refs : List Elem) : Elem :=
  .mk "list" [("name", "Commands"), ("type", "list")] refs

/-- `views.py` 727–728 together with 731–734: the Macro category item
created when absent, holding its `Name` string and the freshly created
Commands list. -/
def newMacroItem (refs : List Elem) : Elem :=
  .mk "item" [] [.mk "string" [("name", "Name"), ("value", "Macro")] [],
    newCommandsList refs]

/-- Append elements at the end of an element's children (`list.append`). -/
def appendChildren (ds : List Elem) (e : Elem) : Elem :=
  .mk e.tag e.attrs (e.children ++ ds)

/-- Effect of the merge on the Macro category item: extend its first
`Commands` list by the reference elements, creating the list when absent
(`views.py` 730–734 and 747–759). -/
def updateMacroItem (refs : List Elem) (it : Elem) : Elem :=
  .mk it.tag it.attrs
    (applyMC (isNamedList "Commands") (appendChildren refs) (newCommandsList refs)
      it.children)

/-- Effect of the merge on the Categories list: update the first item
named `Macro`, appending a fresh one (with the references already inside
its Commands list) when no such item exists (`views.py` 717–734). -/
def updateCategories (refs : List Elem) (cat : Elem) : Elem :=
  .mk cat.tag cat.attrs
    (applyMC isMacroItem (updateMacroItem refs) (newMacroItem refs) cat.children)

/-- The merge generator of `upload_user_file_for_download` (`views.py`
705–763) at the element-tree level: extend (or create as a last root
child) the first root list named `Macros` with the records' parseable
definition snippets, and, only when a root list named `Categories` exists,
route every record's reference element into the Macro category item's
Commands list.  The surrounding serialization (`ET.tostring` plus the
`<?xml ...?>` declaration) is outside the tree. -/
def merge_into (root : Elem) (recs : List MacroRecord) : Elem :=
  let defs := recs.filterMap goodDef
  let refs := recs.map refElem
  let cs1 := applyMC (isNamedList "Macros") (appendChildren defs)
    (newMacrosList defs) root.children
  let cs2 := applyM (isNamedList "Categories") (updateCategories refs) cs1
  .mk root.tag root.attrs cs2

/-! ## Observers on documents -/

/-- Whether the root has a direct child list named `Macros`. -/
def hasMacrosList (root : Elem) : Bool :=
  (root.children.find? (isNamedList "Macros")).isSome

/-- Whether the root has a direct child list named `Categories`. -/
def hasCategoriesList (root : Elem) : Bool :=
  (root.children.find? (isNamedList "Categories")).isSome

/-- The children of the first root list named `Macros` (empty when the
list is absent): the macro definition entries. -/
def macrosChildren (root : Elem) : List Elem :=
  match root.children.find? (isNamedList "Macros") with
  | some l => l.children
  | none => []

/-- The children of the Commands list of the first `Macro`-named item of
the first root list named `Categories` (empty when any link of the chain
is absent): the binding-reference entries. -/
def commandsChildren (root : Elem) : List Elem :=
  match root.children.find? (isNamedList "Categories") with
  | none => []
  | some cat =>
    match cat.children.find? isMacroItem with
    | none => []
    | some it =>
      match it.children.find? (isNamedList "Commands") with
      | none => []
      | some l => l.children

/-- Whether the first root list named `Categories` holds a `Macro`-named
item that itself holds a `Commands` list. -/
def macroScaffold (root : Elem) : Bool :=
  match root.children.find? (isNamedList "Categories") with
  | none => false
  | some cat =>
    match cat.children.find? isMacroItem with
    | none => false
    | some it => (it.children.find? (isNamedList "Commands")).isSome

/-- Whether every structure the merge would otherwise create is already
present: a Macros list, and — when a Categories list exists — a
`Macro`-named item holding a Commands list. -/
def mergeScaffold (root : Elem) : Bool :=
  hasMacrosList root &&
    (!hasCategoriesList root || macroScaffold root)

/-- Remove from a Categories list its first `Macro`-named item. -/
def eraseMacroItem (cat : Elem) : Elem :=
  .mk cat.tag cat.attrs (eraseFirst isMacroItem cat.children)

/-- Erase the two substructures targeted by the merge: the first root
list named `Macros`, and the first `Macro`-named item of the first root
list named `Categories`.  Everything that survives this erasure lies
outside the merge's write region. -/
def eraseTargets (root : Elem) : Elem :=
  .mk root.tag root.attrs
    (applyM (isNamedList "Categories") eraseMacroItem
      (eraseFirst (isNamedList "Macros") root.children))

/-! ## Description synthesis (`save_selected_macros`, views.py 374–381) -/

/-- The inline description block of `save_selected_macros` (`views.py`
374–381): when the explicit description is falsy (empty) and the command
list is non-empty, collect the names of the commands whose `name` key is
truthy (non-empty); if any remain, synthesize `"Executes: A, B, C"` for at
most three names, else `"Executes: A, B, C and N more commands"` with `N`
the number of names beyond the first three; otherwise the description is
left unchanged. -/
def synthesizeDescription (description : String) (commands : List SubCommand) : String :=
  if description = "" && !commands.isEmpty then
    let command_names := (commands.filter (fun c => c.name != "")).map SubCommand.name
    if !command_names.isEmpty then
      if command_names.length ≤ 3 then
        "Executes: " ++ String.intercalate ", " command_names
      else
        "Executes: " ++ String.intercalate ", " (command_names.take 3) ++
          " and " ++ toString (command_names.length - 3) ++ " more commands"
    else description
  else description

/-! ## Upload validation (`KeyCommandsFileForm.clean_file`, forms.py 56–98) -/

mutual

/-- `root.find(".//...")` : first proper descendant satisfying `p`, in
document order. -/
def descFind (p : Elem → Bool) : Elem → Option Elem
  | .mk _ _ cs => descFindList p cs

/-- Document-order search over a forest: each root is tested before its
subtree, subtrees before later siblings. -/
def descFindList (p : Elem → Bool) : List Elem → Option Elem
  | [] => none
  | c :: cs =>
    if p c then some c
    else
      match descFind p c with
      | some r => some r
      | none => descFindList p cs

end

/-- The error kinds surfaced by `clean_file`'s XML-content validation:
`malformedXml` is the `ET.ParseError` branch ("Invalid XML format"),
`schema` the root-tag check ("Root element must be 'KeyCommands'"),
`noData` the two "no macros/categories" rejections. -/
inductive UploadErr : Type where
  | malformedXml : UploadErr
  | schema : UploadErr
  | noData : UploadErr
deriving DecidableEq

/-- Whether a located list holds at least one direct `item` child
(`findall("item")` followed by a length check). -/
def itemsFoundIn (l : Option Elem) : Bool :=
  match l with
  | some m => !(m.children.filter (fun c => c.tag == "item")).isEmpty
  | none => false

/-- forms.py 77–85: macro items satisfy the check; category items are
consulted only when the Macros list yielded none. -/
def itemsFound (root : Elem) : Bool :=
  if (descFind (isNamedList "Categories") root).isSome
      && !itemsFoundIn (descFind (isNamedList "Macros") root) then
    itemsFoundIn (descFind (isNamedList "Categories") root)
  else itemsFoundIn (descFind (isNamedList "Macros") root)

/-- The XML-content validation of `KeyCommandsFileForm.clean_file`
(forms.py 56–98), starting at the `ET.fromstring` boundary: `none` is a
text that is not well-formed XML (`ET.ParseError`), `some root` a
well-formed text with root element `root`.  The earlier size/extension
checks concern the upload wrapper, not the text. -/
def clean_file_validate (parsed : Option Elem) : Except UploadErr Unit :=
  match parsed with
  | none => .error .malformedXml
  | some root =>
    if root.tag != "KeyCommands" then .error .schema
    else if (descFind (isNamedList "Macros") root).isNone
        && (descFind (isNamedList "Categories") root).isNone then .error .noData
    else if itemsFound root then .ok () else .error .noData

/-! ## The extraction/resolution pipeline and the standalone generator

`src/macros/utils.py` (`KeyCommandsParser`, `create_keycommands_xml`) is
not among the analysed sources; every definition in this section is
modelled from the specification (§4.1–§4.4) and says so in its doc
comment. -/

/-- Modelled from the spec: the `Name` attribute of a list/item dialect
node — the `value` of its first `string` child named `Name`
(missing `utils.py`, spec §4.2). -/
def nameOf (e : Elem) : Option String :=
  (e.children.find? isNameString).bind (fun s => attrOf s "value")

/-- Modelled from the spec: one sub-command of a macro definition — its
name, plus its remaining string children as ordered parameters (missing
`utils.py`, spec §3 "SubCommand: name plus an ordered set of parameters").
-/
def extractSubCommand (e : Elem) : SubCommand :=
  { name := (nameOf e).getD ""
    params := e.children.filterMap (fun c =>
      if c.tag == "string" && attrOf c "name" != some "Name" then
        some ((attrOf c "name").getD "", (attrOf c "value").getD "")
      else none) }

/-- Modelled from the spec: the explicit description field of a
definition item, empty when absent (missing `utils.py`, spec §4.2
"when no explicit description field exists"). -/
def explicitDescription (e : Elem) : String :=
  ((e.children.find? (fun c =>
      c.tag == "string" && attrOf c "name" == some "Description")).bind
    (fun s => attrOf s "value")).getD ""

/-- Modelled from the spec: extraction of a single macro definition item —
the required non-empty `Name`, and the ordered sub-commands of its
`Commands` sub-list; `none` means the item is skipped (missing `utils.py`,
spec §4.2 "read the required Name attribute; if missing, skip"). -/
def extractMacroItem (e : Elem) : Option (String × List SubCommand) :=
  if e.tag != "item" then none
  else
    match nameOf e with
    | none => none
    | some n =>
      if n = "" then none
      else
        some (n,
          match e.children.find? (isNamedList "Commands") with
          | some l => (l.children.filter (fun c => c.tag == "item")).map extractSubCommand
          | none => [])

/-- Modelled from the spec: the MacroExtractor pass over the `Macros`
list — one unresolved record per parsable item (with the verbatim item
captured as its definition snippet), plus the skipped-item count (missing
`utils.py`, spec §4.2). -/
def extractRecords (macrosList : Elem) : List MacroRecord × Nat :=
  (macrosList.children.filter (fun c => c.tag == "item")).foldl
    (fun acc it =>
      match extractMacroItem it with
      | some (n, cmds) =>
        (acc.1 ++ [{ name := n
                     description := synthesizeDescription (explicitDescription it) cmds
                     commands := cmds
                     key_bindings := []
                     xml_snippet := .good it
                     reference_snippet := .absent }], acc.2)
      | none => (acc.1, acc.2 + 1))
    ([], 0)

/-- Modelled from the spec: the key-binding display strings carried by a
reference item — the values of its `string` children named `Key` (missing
`utils.py`, spec §4.3 "extract zero-or-more key-binding display strings
from the reference item's attributes"). -/
def extractBindings (refIt : Elem) : List String :=
  refIt.children.filterMap (fun c =>
    if c.tag == "string" && attrOf c "name" == some "Key" then attrOf c "value"
    else none)

/-- Modelled from the spec: the KeyBindingResolver — locate Categories →
item(Name="Macro") → Commands; for each record take the last reference
item whose `Name` matches the record's name exactly, setting its bindings
and capturing the verbatim reference snippet; records are never dropped
(missing `utils.py`, spec §4.3). -/
def resolveRecords (root : Elem) (recs : List MacroRecord) : List MacroRecord :=
  match root.children.find? (isNamedList "Categories") with
  | none => recs
  | some cat =>
    match cat.children.find? isMacroItem with
    | none => recs
    | some it =>
      match it.children.find? (isNamedList "Commands") with
      | none => recs
      | some cl =>
        recs.map (fun r =>
          match ((cl.children.filter (fun c => c.tag == "item")).filter
              (fun f => nameOf f == some r.name)).getLast? with
          | some f => { r with key_bindings := extractBindings f
                               reference_snippet := .good f }
          | none => r)

/-- The structural parse-error kinds of the pipeline (spec §7); the
malformed-XML case lives at the `ET.fromstring` boundary before the tree
exists. -/
inductive PipelineErr : Type where
  | noMacroData : PipelineErr
deriving DecidableEq

/-- Modelled from the spec: the full parse pipeline over a loaded
document — fail with `NoMacroDataError` when both `Macros` and
`Categories` are absent, else extract from `Macros` (an absent `Macros`
list yields no records) and resolve bindings (missing `utils.py`, spec
§4.2–§4.3, §6). -/
def parseTree (root : Elem) : Except PipelineErr (List MacroRecord × Nat) :=
  match root.children.find? (isNamedList "Macros"),
      root.children.find? (isNamedList "Categories") with
  | none, none => .error .noMacroData
  | some ml, _ =>
    let ex := extractRecords ml
    .ok (resolveRecords root ex.1, ex.2)
  | none, some _ => .ok ([], 0)

/-- Modelled from the spec: the synthesized minimal definition node used
when a record has no stored definition snippet (missing `utils.py`, spec
§4.4 "synthesize a minimal definition node from
name/description/commands/key_bindings"). -/
def cmdElem (c : SubCommand) : Elem :=
  .mk "item" []
    (.mk "string" [("name", "Name"), ("value", c.name)] [] ::
      c.params.map (fun p => .mk "string" [("name", p.1), ("value", p.2)] []))

/-- Modelled from the spec: a full synthesized definition item (missing
`utils.py`, spec §4.4). -/
def synthDefItem (r : MacroRecord) : Elem :=
  .mk "item" []
    [.mk "string" [("name", "Name"), ("value", r.name)] [],
     .mk "string" [("name", "Description"), ("value", r.description)] [],
     .mk "list" [("name", "Commands"), ("type", "list")] (r.commands.map cmdElem)]

/-- Modelled from the spec: the definition element emitted for one record
— the re-parsed raw snippet preferred, the synthesized node otherwise
(missing `utils.py`, spec §4.4). -/
def defElem (r : MacroRecord) : Elem :=
  match r.xml_snippet with
  | .good e => e
  | _ => synthDefItem r

/-- Modelled from the spec: the standalone generator — a fresh
`KeyCommands` document holding a `Macros` list with the records'
definition elements in caller order, and a `Categories` list whose
`Macro` item's `Commands` list holds each record's verbatim or
synthesized reference (missing `utils.py`, spec §4.4). -/
def generate_standalone (recs : List MacroRecord) : Elem :=
  .mk "KeyCommands" []
    [newMacrosList (recs.map defElem),
     .mk "list" [("name", "Categories"), ("type", "list")]
       [newMacroItem (recs.map refElem)]]

/-- The §3 record invariant needed for the content round-trip: the
definition snippet re-parses to a node that extracts back to the record's
own name and commands, and the reference snippet (when present) is a
reference item for this record carrying exactly its bindings — a record
persisted without a reference snippet has no bindings. -/
def wellFormedRecord (r : MacroRecord) : Bool :=
  (match r.xml_snippet with
    | .good e => extractMacroItem e == some (r.name, r.commands)
    | _ => false) &&
  (match r.reference_snippet with
    | .good f => f.tag == "item" && nameOf f == some r.name &&
        extractBindings f == r.key_bindings
    | _ => r.key_bindings.isEmpty)

/-! ## Concrete fixtures -/

/-- A bare user document: `KeyCommands` root with no children. -/
def emptyDoc : Elem := .mk "KeyCommands" [] []

/-- A user document carrying the full merge scaffolding: an empty Macros
list, and a Categories list holding a `Macro` item with an empty Commands
list. -/
def scaffoldDoc : Elem :=
  .mk "KeyCommands" []
    [.mk "list" [("name", "Macros"), ("type", "list")] [],
     .mk "list" [("name", "Categories"), ("type", "list")]
       [.mk "item" []
         [.mk "string" [("name", "Name"), ("value", "Macro")] [],
          .mk "list" [("name", "Commands"), ("type", "list")] []]]]

/-- A user document with an empty Categories list and no Macros list. -/
def catOnlyDoc : Elem :=
  .mk "KeyCommands" [] [.mk "list" [("name", "Categories"), ("type", "list")] []]

/-- A macro definition item named `Dup`. -/
def dupItem : Elem :=
  .mk "item" [] [.mk "string" [("name", "Name"), ("value", "Dup")] []]

/-- A record named `Dup` whose definition snippet re-parses to `dupItem`. -/
def dupRec : MacroRecord :=
  { name := "Dup", description := "", commands := [], key_bindings := []
    xml_snippet := .good dupItem, reference_snippet := .absent }

/-- A second record also named `Dup` (a distinct row with its own
description), with the same stored definition snippet text. -/
def dupRec2 : MacroRecord :=
  { name := "Dup", description := "second copy", commands := [], key_bindings := []
    xml_snippet := .good dupItem, reference_snippet := .absent }

/-- A record whose stored definition snippet does not re-parse and whose
reference snippet does not re-parse either. -/
def badRec : MacroRecord :=
  { name := "Broken", description := "", commands := [], key_bindings := []
    xml_snippet := .bad, reference_snippet := .bad }

/-- A record with an unparseable definition snippet and no reference
snippet at all. -/
def orphanRec : MacroRecord :=
  { name := "Orphan", description := "", commands := [], key_bindings := []
    xml_snippet := .bad, reference_snippet := .absent }

/-- The commands of the C5 instance: Solo, Mute, Undo, Redo. -/
def soloCmds : List SubCommand :=
  [⟨"Solo", []⟩, ⟨"Mute", []⟩, ⟨"Undo", []⟩, ⟨"Redo", []⟩]

/-- The commands of the C10 instance: four named commands interleaved
with an unnamed one. -/
def mixedCmds : List SubCommand :=
  [⟨"Solo", []⟩, ⟨"", []⟩, ⟨"Mute", []⟩, ⟨"Undo", []⟩, ⟨"Redo", []⟩]

/-- A concrete definition item: macro `M1` executing the single command
`Solo`. -/
def rtDefItem : Elem :=
  .mk "item" []
    [.mk "string" [("name", "Name"), ("value", "M1")] [],
     .mk "list" [("name", "Commands"), ("type", "list")]
       [.mk "item" [] [.mk "string" [("name", "Name"), ("value", "Solo")] []]]]

/-- A concrete reference item binding `M1` to `Ctrl+M`. -/
def rtRefItem : Elem :=
  .mk "item" []
    [.mk "string" [("name", "Name"), ("value", "M1")] [],
     .mk "string" [("name", "Key"), ("value", "Ctrl+M")] []]

/-- A concrete well-formed record carrying both snippets. -/
def rtRec : MacroRecord :=
  { name := "M1", description := "", commands := [⟨"Solo", []⟩]
    key_bindings := ["Ctrl+M"]
    xml_snippet := .good rtDefItem, reference_snippet := .good rtRefItem }

section ListCombinatorLemmas

variable {α : Type _}

@[simp] theorem applyM_nil (p : α → Bool) (g : α → α) : applyM p g [] = [] := rfl

@[simp] theorem applyM_cons (p : α → Bool) (g : α → α) (a : α) (l : List α) :
    applyM p g (a :: l) = if p a then g a :: l else a :: applyM p g l := rfl

@[simp] theorem applyMC_nil (p : α → Bool) (g : α → α) (mk : α) :
    applyMC p g mk [] = [mk] := rfl

@[simp] theorem applyMC_cons (p : α → Bool) (g : α → α) (mk : α) (a : α) (l : List α) :
    applyMC p g mk (a :: l) = if p a then g a :: l else a :: applyMC p g mk l := rfl

@[simp] theorem eraseFirst_nil (p : α → Bool) : eraseFirst p [] = [] := rfl

@[simp] theorem eraseFirst_cons (p : α → Bool) (a : α) (l : List α) :
    eraseFirst p (a :: l) = if p a then l else a :: eraseFirst p l := rfl

theorem find?_applyM_self (p : α → Bool) (g : α → α)
    (hg : ∀ a, p (g a) = p a) (l : List α) :
    (applyM p g l).find? p = (l.find? p).map g := by
  induction l with
  | nil => simp
  | cons a l ih =>
    by_cases h : p a = true
    · simp [h, List.find?_cons, hg]
    · simp only [Bool.not_eq_true] at h
      simp [h, List.find?_cons, ih]

theorem find?_applyM_other (p q : α → Bool) (g : α → α)
    (hq : ∀ a, q (g a) = q a) (hpq : ∀ a, p a = true → q a = false) (l : List α) :
    (applyM p g l).find? q = l.find? q := by
  induction l with
  | nil => simp
  | cons a l ih =>
    by_cases h : p a = true
    · have hqa := hpq a h
      simp [h, List.find?_cons, hq, hqa]
    · simp only [Bool.not_eq_true] at h
      by_cases h2 : q a = true
      · simp [h, List.find?_cons, h2]
      · simp only [Bool.not_eq_true] at h2
        simp [h, List.find?_cons, h2, ih]

theorem find?_applyMC_self (p : α → Bool) (g : α → α) (mk : α)
    (hg : ∀ a, p (g a) = p a) (hmk : p mk = true) (l : List α) :
    (applyMC p g mk l).find? p = some ((l.find? p).elim mk g) := by
  induction l with
  | nil => simp [List.find?_cons, hmk]
  | cons a l ih =>
    by_cases h : p a = true
    · simp [h, List.find?_cons, hg]
    · simp only [Bool.not_eq_true] at h
      simp [h, List.find?_cons, ih]

theorem find?_applyMC_other (p q : α → Bool) (g : α → α) (mk : α)
    (hq : ∀ a, q (g a) = q a) (hpq : ∀ a, p a = true → q a = false)
    (hmk : q mk = false) (l : List α) :
    (applyMC p g mk l).find? q = l.find? q := by
  induction l with
  | nil => simp [List.find?_cons, hmk]
  | cons a l ih =>
    by_cases h : p a = true
    · have hqa := hpq a h
      simp [h, List.find?_cons, hq, hqa]
    · simp only [Bool.not_eq_true] at h
      by_cases h2 : q a = true
      · simp [h, List.find?_cons, h2]
      · simp only [Bool.not_eq_true] at h2
        simp [h, List.find?_cons, h2, ih]

theorem eraseFirst_applyM (p q : α → Bool) (g : α → α)
    (hq : ∀ a, q (g a) = q a) (hqp : ∀ a, q a = true → p a = false) (l : List α) :
    eraseFirst p (applyM q g l) = applyM q g (eraseFirst p l) := by
  induction l with
  | nil => simp
  | cons a l ih =>
    by_cases hp : p a = true
    · have hqa : q a = false := by
        by_contra hc
        simp only [Bool.not_eq_false] at hc
        exact absurd hp (by simp [hqp a hc])
      simp [hp, hqa]
    · simp only [Bool.not_eq_true] at hp
      by_cases hqa : q a = true
      · have : p (g a) = false := hqp (g a) (by simp [hq, hqa])
        simp [hp, hqa, this]
      · simp only [Bool.not_eq_true] at hqa
        simp [hp, hqa, ih]

theorem eraseFirst_applyMC_self (p : α → Bool) (g : α → α) (mk : α)
    (hg : ∀ a, p a = true → p (g a) = true) (hmk : p mk = true) (l : List α) :
    eraseFirst p (applyMC p g mk l) = eraseFirst p l := by
  induction l with
  | nil => simp [hmk]
  | cons a l ih =>
    by_cases h : p a = true
    · simp [h, hg a h]
    · simp only [Bool.not_eq_true] at h
      simp [h, ih]

theorem applyM_applyM_self (p : α → Bool) (g h : α → α)
    (hg : ∀ a, p (g a) = p a) (l : List α) :
    applyM p h (applyM p g l) = applyM p (fun a => h (g a)) l := by
  induction l with
  | nil => simp
  | cons a l ih =>
    by_cases hp : p a = true
    · simp [hp, hg]
    · simp only [Bool.not_eq_true] at hp
      simp [hp, ih]

theorem applyM_congr (p : α → Bool) (f g : α → α)
    (hfg : ∀ a, p a = true → f a = g a) (l : List α) :
    applyM p f l = applyM p g l := by
  induction l with
  | nil => simp
  | cons a l ih =>
    by_cases hp : p a = true
    · simp [hp, hfg a hp]
    · simp only [Bool.not_eq_true] at hp
      simp [hp, ih]

theorem applyM_eq_of_find? (p : α → Bool) (g : α → α) (l : List α) (a : α)
    (hfind : l.find? p = some a) (hid : g a = a) : applyM p g l = l := by
  induction l with
  | nil => simp at hfind
  | cons b l ih =>
    by_cases hp : p b = true
    · rw [List.find?_cons_of_pos _ hp] at hfind
      cases hfind
      simp [hp, hid]
    · simp only [Bool.not_eq_true] at hp
      rw [List.find?_cons_of_neg _ (by simp [hp])] at hfind
      simp [hp, ih hfind]

theorem applyM_eq_of_none (p : α → Bool) (g : α → α) (l : List α)
    (hfind : l.find? p = none) : applyM p g l = l := by
  induction l with
  | nil => simp
  | cons b l ih =>
    by_cases hp : p b = true
    · rw [List.find?_cons_of_pos _ hp] at hfind
      cases hfind
    · simp only [Bool.not_eq_true] at hp
      rw [List.find?_cons_of_neg _ (by simp [hp])] at hfind
      simp [hp, ih hfind]

theorem applyMC_eq_of_find? (p : α → Bool) (g : α → α) (mk : α) (l : List α) (a : α)
    (hfind : l.find? p = some a) (hid : g a = a) : applyMC p g mk l = l := by
  induction l with
  | nil => simp at hfind
  | cons b l ih =>
    by_cases hp : p b = true
    · rw [List.find?_cons_of_pos _ hp] at hfind
      cases hfind
      simp [hp, hid]
    · simp only [Bool.not_eq_true] at hp
      rw [List.find?_cons_of_neg _ (by simp [hp])] at hfind
      simp [hp, ih hfind]

end ListCombinatorLemmas

/-! ## Basic facts about the predicates and node builders -/

@[simp] theorem Elem.tag_mk (t : String) (a : List (String × String)) (c : List Elem) :
    (Elem.mk t a c).tag = t := rfl

@[simp] theorem Elem.attrs_mk (t : String) (a : List (String × String)) (c : List Elem) :
    (Elem.mk t a c).attrs = a := rfl

@[simp] theorem Elem.children_mk (t : String) (a : List (String × String)) (c : List Elem) :
    (Elem.mk t a c).children = c := rfl

theorem isNamedList_of_tag_ne (nm : String) (e : Elem) (h : e.tag ≠ "list") :
    isNamedList nm e = false := by
  simp [isNamedList, h]

theorem isNameString_of_tag_ne (e : Elem) (h : e.tag ≠ "string") :
    isNameString e = false := by
  simp [isNameString, h]

theorem isMacroItem_of_tag_ne (e : Elem) (h : e.tag ≠ "item") :
    isMacroItem e = false := by
  simp [isMacroItem, h]

theorem tag_of_isNamedList (nm : String) (e : Elem) (h : isNamedList nm e = true) :
    e.tag = "list" := by
  simp [isNamedList] at h
  exact h.1

theorem tag_of_isMacroItem (e : Elem) (h : isMacroItem e = true) : e.tag = "item" := by
  simp only [isMacroItem, Bool.and_eq_true, beq_iff_eq] at h
  exact h.1

theorem isNamedList_disjoint (nm nm' : String) (e : Elem) (hne : nm ≠ nm')
    (h : isNamedList nm e = true) : isNamedList nm' e = false := by
  simp only [isNamedList, Bool.and_eq_true, beq_iff_eq] at h
  simp [isNamedList, h.1, h.2, hne]

theorem isNamedList_appendChildren (nm : String) (ds : List Elem) (e : Elem) :
    isNamedList nm (appendChildren ds e) = isNamedList nm e := rfl

theorem isNameString_appendChildren (ds : List Elem) (e : Elem) :
    isNameString (appendChildren ds e) = isNameString e := rfl

theorem isNamedList_updateMacroItem (nm : String) (refs : List Elem) (e : Elem) :
    isNamedList nm (updateMacroItem refs e) = isNamedList nm e := rfl

theorem isNamedList_updateCategories (nm : String) (refs : List Elem) (e : Elem) :
    isNamedList nm (updateCategories refs e) = isNamedList nm e := rfl

theorem isNamedList_eraseMacroItem (nm : String) (e : Elem) :
    isNamedList nm (eraseMacroItem e) = isNamedList nm e := rfl

theorem isNamedList_newMacrosList (defs : List Elem) :
    isNamedList "Macros" (newMacrosList defs) = true := by
  simp [isNamedList, newMacrosList, attrOf]

theorem isNamedList_newMacrosList_other (nm : String) (defs : List Elem)
    (h : nm ≠ "Macros") : isNamedList nm (newMacrosList defs) = false := by
  simp [isNamedList, newMacrosList, attrOf, Ne.symm h]

theorem isNamedList_newCommandsList (refs : List Elem) :
    isNamedList "Commands" (newCommandsList refs) = true := by
  simp [isNamedList, newCommandsList, attrOf]

theorem isNameString_newCommandsList (refs : List Elem) :
    isNameString (newCommandsList refs) = false := by
  simp [isNameString, newCommandsList]

theorem isMacroItem_newMacroItem (refs : List Elem) :
    isMacroItem (newMacroItem refs) = true := by
  simp [isMacroItem, newMacroItem, isNameString, attrOf, List.find?_cons]

theorem isMacroItem_updateMacroItem (refs : List Elem) (e : Elem) :
    isMacroItem (updateMacroItem refs e) = isMacroItem e := by
  simp only [isMacroItem, updateMacroItem, Elem.tag_mk, Elem.children_mk]
  rw [find?_applyMC_other (isNamedList "Commands") isNameString
    (appendChildren refs) (newCommandsList refs)
    (fun a => isNameString_appendChildren refs a)
    (fun a ha => isNameString_of_tag_ne a (by rw [tag_of_isNamedList _ _ ha]; decide))
    (isNameString_newCommandsList refs)]

theorem isMacroItem_updateCategories (refs : List Elem) (e : Elem) :
    isMacroItem (updateCategories refs e) = isMacroItem e := by
  by_cases h : e.tag = "item"
  · simp only [isMacroItem, updateCategories, Elem.tag_mk, Elem.children_mk, h]
    rw [find?_applyMC_other isMacroItem isNameString
      (updateMacroItem refs) (newMacroItem refs)
      (fun a => rfl)
      (fun a ha => isNameString_of_tag_ne a (by rw [tag_of_isMacroItem _ ha]; decide))
      (isNameString_of_tag_ne _ (by simp [newMacroItem]))]
  · rw [isMacroItem_of_tag_ne _ (by simpa [updateCategories] using h),
      isMacroItem_of_tag_ne _ h]

/-! ## Core lemmas about the merge generator -/

theorem appendChildren_nil (e : Elem) : appendChildren [] e = e := by
  cases e
  simp [appendChildren]

theorem merge_into_children (root : Elem) (recs : List MacroRecord) :
    (merge_into root recs).children =
      applyM (isNamedList "Categories") (updateCategories (recs.map refElem))
        (applyMC (isNamedList "Macros") (appendChildren (recs.filterMap goodDef))
          (newMacrosList (recs.filterMap goodDef)) root.children) := rfl

theorem find?_macros_merge (root : Elem) (recs : List MacroRecord) :
    (merge_into root recs).children.find? (isNamedList "Macros") =
      some ((root.children.find? (isNamedList "Macros")).elim
        (newMacrosList (recs.filterMap goodDef))
        (appendChildren (recs.filterMap goodDef))) := by
  rw [merge_into_children,
    find?_applyM_other (isNamedList "Categories") (isNamedList "Macros")
      (updateCategories (recs.map refElem))
      (fun a => isNamedList_updateCategories _ _ a)
      (fun a ha => isNamedList_disjoint _ _ a (by decide) ha),
    find?_applyMC_self (isNamedList "Macros") _ _
      (fun a => isNamedList_appendChildren _ _ a)
      (isNamedList_newMacrosList _)]

theorem hasMacrosList_merge (root : Elem) (recs : List MacroRecord) :
    hasMacrosList (merge_into root recs) = true := by
  simp [hasMacrosList, find?_macros_merge]

theorem macrosChildren_merge (root : Elem) (recs : List MacroRecord) :
    macrosChildren (merge_into root recs) =
      macrosChildren root ++ recs.filterMap goodDef := by
  unfold macrosChildren
  rw [find?_macros_merge]
  cases hfind : root.children.find? (isNamedList "Macros") with
  | none => simp [newMacrosList]
  | some l => simp [appendChildren]

theorem find?_categories_merge (root : Elem) (recs : List MacroRecord) :
    (merge_into root recs).children.find? (isNamedList "Categories") =
      (root.children.find? (isNamedList "Categories")).map
        (updateCategories (recs.map refElem)) := by
  rw [merge_into_children,
    find?_applyM_self (isNamedList "Categories") (updateCategories (recs.map refElem))
      (fun a => isNamedList_updateCategories _ _ a),
    find?_applyMC_other (isNamedList "Macros") (isNamedList "Categories")
      (appendChildren (recs.filterMap goodDef)) (newMacrosList (recs.filterMap goodDef))
      (fun a => isNamedList_appendChildren _ _ a)
      (fun a ha => isNamedList_disjoint _ _ a (by decide) ha)
      (isNamedList_newMacrosList_other _ _ (by decide))]

theorem hasCategoriesList_merge (root : Elem) (recs : List MacroRecord) :
    hasCategoriesList (merge_into root recs) = hasCategoriesList root := by
  simp [hasCategoriesList, find?_categories_merge]

theorem find?_macroItem_updateCategories (refs : List Elem) (cat : Elem) :
    (updateCategories refs cat).children.find? isMacroItem =
      some ((cat.children.find? isMacroItem).elim
        (newMacroItem refs) (updateMacroItem refs)) := by
  simp only [updateCategories, Elem.children_mk]
  rw [find?_applyMC_self isMacroItem _ _
    (fun a => isMacroItem_updateMacroItem refs a) (isMacroItem_newMacroItem refs)]

theorem find?_commands_updateMacroItem (refs : List Elem) (it : Elem) :
    (updateMacroItem refs it).children.find? (isNamedList "Commands") =
      some ((it.children.find? (isNamedList "Commands")).elim
        (newCommandsList refs) (appendChildren refs)) := by
  simp only [updateMacroItem, Elem.children_mk]
  rw [find?_applyMC_self (isNamedList "Commands") _ _
    (fun a => isNamedList_appendChildren _ _ a) (isNamedList_newCommandsList refs)]

theorem find?_commands_newMacroItem (refs : List Elem) :
    (newMacroItem refs).children.find? (isNamedList "Commands") =
      some (newCommandsList refs) := by
  rw [show (newMacroItem refs).children =
      [Elem.mk "string" [("name", "Name"), ("value", "Macro")] [],
        newCommandsList refs] from rfl,
    List.find?_cons_of_neg _ (by simp [isNamedList]),
    List.find?_cons_of_pos _ (isNamedList_newCommandsList refs)]

theorem commandsChildren_merge (root : Elem) (recs : List MacroRecord)
    (h : hasCategoriesList root = true) :
    commandsChildren (merge_into root recs) =
      commandsChildren root ++ recs.map refElem := by
  have h' : (root.children.find? (isNamedList "Categories")).isSome = true := h
  obtain ⟨cat, hcat⟩ := Option.isSome_iff_exists.mp h'
  unfold commandsChildren
  rw [find?_categories_merge, hcat, Option.map_some']
  dsimp only
  rw [find?_macroItem_updateCategories]
  cases hit : cat.children.find? isMacroItem with
  | none => simp [find?_commands_newMacroItem, newCommandsList]
  | some it =>
    simp only [Option.elim, find?_commands_updateMacroItem]
    cases hl : it.children.find? (isNamedList "Commands") with
    | none => simp [newCommandsList]
    | some l => simp [appendChildren]

theorem macroScaffold_merge (root : Elem) (recs : List MacroRecord)
    (h : hasCategoriesList root = true) :
    macroScaffold (merge_into root recs) = true := by
  have h' : (root.children.find? (isNamedList "Categories")).isSome = true := h
  obtain ⟨cat, hcat⟩ := Option.isSome_iff_exists.mp h'
  unfold macroScaffold
  rw [find?_categories_merge, hcat, Option.map_some']
  dsimp only
  rw [find?_macroItem_updateCategories]
  cases hit : cat.children.find? isMacroItem with
  | none => simp [find?_commands_newMacroItem]
  | some it => simp [find?_commands_updateMacroItem]

theorem updateMacroItem_nil (it : Elem)
    (h : (it.children.find? (isNamedList "Commands")).isSome = true) :
    updateMacroItem [] it = it := by
  obtain ⟨l, hl⟩ := Option.isSome_iff_exists.mp h
  unfold updateMacroItem
  rw [applyMC_eq_of_find? _ _ _ _ _ hl (appendChildren_nil l)]
  cases it
  rfl

theorem merge_into_nil_of_scaffold (root : Elem) (h : mergeScaffold root = true) :
    merge_into root [] = root := by
  simp only [mergeScaffold, Bool.and_eq_true, Bool.or_eq_true, Bool.not_eq_true'] at h
  obtain ⟨hm, hc⟩ := h
  obtain ⟨ml, hml⟩ := Option.isSome_iff_exists.mp (show _ from hm)
  unfold merge_into
  simp only [List.filterMap_nil, List.map_nil]
  rw [applyMC_eq_of_find? _ _ _ _ _ hml (appendChildren_nil ml)]
  rcases hc with hc | hc
  · rw [applyM_eq_of_none _ _ _ (by
      cases hfind : root.children.find? (isNamedList "Categories") with
      | none => rfl
      | some cat => rw [hasCategoriesList, hfind] at hc; cases hc)]
    cases root
    rfl
  · unfold macroScaffold at hc
    cases hfind : root.children.find? (isNamedList "Categories") with
    | none =>
      rw [applyM_eq_of_none _ _ _ hfind]
      cases root
      rfl
    | some cat =>
      rw [hfind] at hc
      dsimp only at hc
      cases hit : cat.children.find? isMacroItem with
      | none => rw [hit] at hc; cases hc
      | some it =>
        rw [hit] at hc
        have hupd : updateCategories [] cat = cat := by
          unfold updateCategories
          rw [applyMC_eq_of_find? _ _ _ _ _ hit (updateMacroItem_nil it hc)]
          cases cat
          rfl
        rw [applyM_eq_of_find? _ _ _ _ hfind hupd]
        cases root
        rfl

theorem eraseMacroItem_updateCategories (refs : List Elem) (cat : Elem) :
    eraseMacroItem (updateCategories refs cat) = eraseMacroItem cat := by
  unfold eraseMacroItem updateCategories
  simp only [Elem.tag_mk, Elem.attrs_mk, Elem.children_mk]
  rw [eraseFirst_applyMC_self isMacroItem (updateMacroItem refs) (newMacroItem refs)
    (fun a ha => by rw [isMacroItem_updateMacroItem]; exact ha)
    (isMacroItem_newMacroItem refs)]

theorem merge_into_tag (root : Elem) (recs : List MacroRecord) :
    (merge_into root recs).tag = root.tag := rfl

theorem merge_into_attrs (root : Elem) (recs : List MacroRecord) :
    (merge_into root recs).attrs = root.attrs := rfl

theorem eraseTargets_merge (root : Elem) (recs : List MacroRecord) :
    eraseTargets (merge_into root recs) = eraseTargets root := by
  unfold eraseTargets
  rw [merge_into_tag, merge_into_attrs, merge_into_children]
  rw [eraseFirst_applyM (isNamedList "Macros") (isNamedList "Categories")
      (updateCategories (recs.map refElem))
      (fun a => isNamedList_updateCategories _ _ a)
      (fun a ha => isNamedList_disjoint _ _ a (by decide) ha),
    eraseFirst_applyMC_self (isNamedList "Macros")
      (appendChildren (recs.filterMap goodDef)) (newMacrosList (recs.filterMap goodDef))
      (fun a ha => by rw [isNamedList_appendChildren]; exact ha)
      (isNamedList_newMacrosList _),
    applyM_applyM_self (isNamedList "Categories")
      (updateCategories (recs.map refElem)) eraseMacroItem
      (fun a => isNamedList_updateCategories _ _ a),
    applyM_congr (isNamedList "Categories") _ eraseMacroItem
      (fun a _ => eraseMacroItem_updateCategories (recs.map refElem) a)]

/-! ## Claims about the merge generator -/

/-- C1: during merge into a caller-supplied document, nothing outside the
two target substructures — the first root list named "Macros" and the
first `Macro`-named category item (the creation/extension site of the
"Categories" → item(Name="Macro") → "Commands" chain) — is mutated: for
every input document and record list, erasing the two targets from the
merge output yields exactly the erasure of the input, so every element
outside them is identical to the corresponding input element. -/
theorem merge_frame_outside_targets (root : Elem) (recs : List MacroRecord) :
    eraseTargets (merge_into root recs) = eraseTargets root :=
  eraseTargets_merge root recs

/-- C2 (counterexample): a record whose stored definition and reference
snippets both fail to re-parse does not make the merge fail — the merge
completes, producing a concrete document in which the unparseable
definition contributed nothing and the reference was synthesized. -/
theorem merge_bad_snippet_completes :
    merge_into scaffoldDoc [badRec] =
      .mk "KeyCommands" []
        [.mk "list" [("name", "Macros"), ("type", "list")] [],
         .mk "list" [("name", "Categories"), ("type", "list")]
           [.mk "item" []
             [.mk "string" [("name", "Name"), ("value", "Macro")] [],
              .mk "list" [("name", "Commands"), ("type", "list")]
                [synthRef "Broken"]]]] := by
  decide

/-- C2 (amended): the merge never reports a snippet re-parse error. A
definition snippet that does not re-parse is silently omitted from the
Macros list, and a reference snippet that does not re-parse is replaced by
the synthesized fallback reference; the merge completes normally. -/
theorem merge_bad_snippet_fallback (root : Elem) (r : MacroRecord)
    (hdef : r.xml_snippet = .bad) :
    macrosChildren (merge_into root [r]) = macrosChildren root ∧
    (r.reference_snippet = .bad → refElem r = synthRef r.name) ∧
    (hasCategoriesList root = true →
      commandsChildren (merge_into root [r]) =
        commandsChildren root ++ [refElem r]) := by
  refine ⟨?_, ?_, ?_⟩
  · rw [macrosChildren_merge]
    simp [goodDef, hdef]
  · intro href
    simp [refElem, href]
  · intro h
    rw [commandsChildren_merge root [r] h]
    simp

theorem merge_bad_snippet_fallback_witness :
    badRec.xml_snippet = .bad ∧
    macrosChildren (merge_into scaffoldDoc [badRec]) = macrosChildren scaffoldDoc ∧
    refElem badRec = synthRef badRec.name ∧
    commandsChildren (merge_into scaffoldDoc [badRec]) =
      commandsChildren scaffoldDoc ++ [refElem badRec] :=
  ⟨rfl, (merge_bad_snippet_fallback scaffoldDoc badRec rfl).1,
    (merge_bad_snippet_fallback scaffoldDoc badRec rfl).2.1 rfl,
    (merge_bad_snippet_fallback scaffoldDoc badRec rfl).2.2 rfl⟩

/-- C3 (counterexample): merging one record into a document that has no
"Categories" list does not create one — the output of merging into a bare
root contains a Macros list but neither a Categories list nor the Macro
category item with its Commands list, refuting "after a merge with at
least one record the output document contains all three substructures". -/
theorem merge_no_categories_created :
    hasCategoriesList (merge_into emptyDoc [dupRec]) = false ∧
    macroScaffold (merge_into emptyDoc [dupRec]) = false := by
  decide

/-- C3 (amended): the merge creates an empty Macros list as a direct root
child when absent, and locates or creates the `Macro` category item and
its nested Commands list under an existing Categories list — but it never
creates the Categories list itself: after any merge the output has a
Macros list; it has the Macro item with its Commands list whenever the
input had a Categories list, and it has no Categories list whenever the
input had none. -/
theorem merge_scaffold_creation (root : Elem) (recs : List MacroRecord) :
    hasMacrosList (merge_into root recs) = true ∧
    (hasCategoriesList root = true → macroScaffold (merge_into root recs) = true) ∧
    (hasCategoriesList root = false →
      hasCategoriesList (merge_into root recs) = false) := by
  refine ⟨hasMacrosList_merge root recs, fun h => macroScaffold_merge root recs h, ?_⟩
  intro h
  rw [hasCategoriesList_merge]
  exact h

theorem merge_scaffold_creation_witness :
    (hasMacrosList (merge_into catOnlyDoc [dupRec]) = true ∧
      macroScaffold (merge_into catOnlyDoc [dupRec]) = true) ∧
    hasCategoriesList (merge_into emptyDoc [dupRec]) = false :=
  ⟨⟨(merge_scaffold_creation catOnlyDoc [dupRec]).1,
    (merge_scaffold_creation catOnlyDoc [dupRec]).2.1 rfl⟩,
   (merge_scaffold_creation emptyDoc [dupRec]).2.2 rfl⟩

/-- C4: the merge never deduplicates macro names — the Macros list of the
output is always the input's entries followed by one definition element
per record with a parseable snippet, irrespective of any name collision;
in particular merging two records both named "Dup" into a document with no
prior macros yields a Macros list holding two items, both carrying
Name="Dup". -/
theorem merge_no_dedup :
    (∀ (root : Elem) (recs : List MacroRecord),
      macrosChildren (merge_into root recs) =
        macrosChildren root ++ recs.filterMap goodDef) ∧
    macrosChildren (merge_into emptyDoc [dupRec, dupRec2]) = [dupItem, dupItem] ∧
    nameOf dupItem = some "Dup" := by
  refine ⟨fun root recs => macrosChildren_merge root recs, ?_, ?_⟩
  · rw [macrosChildren_merge]
    decide
  · decide

/-- C7 (counterexample): merging an empty record list is not a no-op on
every document — on a bare `KeyCommands` root it creates an empty Macros
list, so the output differs from the input. -/
theorem merge_nil_not_noop :
    merge_into emptyDoc [] ≠ emptyDoc ∧
    merge_into emptyDoc [] =
      .mk "KeyCommands" [] [.mk "list" [("name", "Macros"), ("type", "list")] []] := by
  decide

/-- C7 (amended): merging an empty record list changes nothing beyond
creating the missing target scaffolding; on any document that already has
a Macros list and — if it has a Categories list — a `Macro` item holding a
Commands list, `merge_into doc []` returns the document unchanged
exactly. -/
theorem merge_nil_noop_on_scaffolded (root : Elem) (h : mergeScaffold root = true) :
    merge_into root [] = root :=
  merge_into_nil_of_scaffold root h

theorem merge_nil_noop_on_scaffolded_witness :
    mergeScaffold scaffoldDoc = true ∧ merge_into scaffoldDoc [] = scaffoldDoc :=
  ⟨by decide, merge_nil_noop_on_scaffolded scaffoldDoc (by decide)⟩

/-- C9: the two snippet kinds fail asymmetrically in merge mode — when
the document has a Categories list, the Commands list gains one reference
element per record (the synthesized Name-only item whenever the reference
snippet is absent or does not re-parse), while the Macros list gains
definition elements only for records whose definition snippet re-parses,
with no synthesized fallback; so a record with a bad definition snippet
still contributes a binding reference with no definition. -/
theorem merge_snippet_asymmetry (root : Elem) (recs : List MacroRecord)
    (h : hasCategoriesList root = true) :
    commandsChildren (merge_into root recs) =
      commandsChildren root ++ recs.map refElem ∧
    macrosChildren (merge_into root recs) =
      macrosChildren root ++ recs.filterMap goodDef ∧
    (∀ r : MacroRecord,
      r.reference_snippet = .bad ∨ r.reference_snippet = .absent →
        refElem r = synthRef r.name) ∧
    (∀ r : MacroRecord,
      r.xml_snippet = .bad ∨ r.xml_snippet = .absent → goodDef r = none) := by
  refine ⟨commandsChildren_merge root recs h, macrosChildren_merge root recs, ?_, ?_⟩
  · rintro r (hr | hr) <;> simp [refElem, hr]
  · rintro r (hr | hr) <;> simp [goodDef, hr]

theorem merge_snippet_asymmetry_witness :
    hasCategoriesList scaffoldDoc = true ∧
    commandsChildren (merge_into scaffoldDoc [orphanRec]) = [synthRef "Orphan"] ∧
    macrosChildren (merge_into scaffoldDoc [orphanRec]) = [] := by
  refine ⟨rfl, ?_, ?_⟩
  · rw [(merge_snippet_asymmetry scaffoldDoc [orphanRec] rfl).1]
    decide
  · rw [(merge_snippet_asymmetry scaffoldDoc [orphanRec] rfl).2.1]
    decide

/-! ## Claims about description synthesis -/

/-- C5: for a macro with no explicit description and a non-empty command
sequence (all commands named), the synthesized description is
"Executes: A, B, C" listing all command names when there are at most three
commands, and otherwise "Executes: A, B, C and N more commands" listing
the first three names in document order with N the count beyond the first
three. -/
theorem description_synthesis (cmds : List SubCommand) (h1 : cmds ≠ [])
    (h2 : ∀ c ∈ cmds, c.name ≠ "") :
    synthesizeDescription "" cmds =
      if cmds.length ≤ 3 then
        "Executes: " ++ String.intercalate ", " (cmds.map SubCommand.name)
      else
        "Executes: " ++ String.intercalate ", " ((cmds.map SubCommand.name).take 3) ++
          " and " ++ toString (cmds.length - 3) ++ " more commands" := by
  have hfilter : cmds.filter (fun c => c.name != "") = cmds :=
    List.filter_eq_self.mpr (fun c hc => by simpa using h2 c hc)
  have hne : cmds.isEmpty = false := by
    cases cmds with
    | nil => exact absurd rfl h1
    | cons a l => rfl
  unfold synthesizeDescription
  rw [hfilter]
  have hmapne : (cmds.map SubCommand.name).isEmpty = false := by
    cases cmds with
    | nil => exact absurd rfl h1
    | cons a l => rfl
  simp only [hne, hmapne, Bool.not_false, Bool.and_self, if_true, List.length_map]
  simp

/-- C5 witness: commands [Solo, Mute, Undo, Redo] with no explicit
description synthesize "Executes: Solo, Mute, Undo and 1 more commands". -/
theorem description_synthesis_witness :
    synthesizeDescription "" soloCmds =
      "Executes: Solo, Mute, Undo and 1 more commands" := by
  rw [description_synthesis soloCmds (by decide) (by decide)]
  decide

/-- C10: description synthesis only ever consults the commands with a
non-empty name — the synthesized text over any command list equals the one
over its named sublist, the trailing count N counts only named commands
beyond the first three, and when no named command exists at all the
description stays empty. -/
theorem description_ignores_unnamed (cmds : List SubCommand) :
    synthesizeDescription "" cmds =
        synthesizeDescription "" (cmds.filter (fun c => c.name != "")) ∧
    ((cmds.filter (fun c => c.name != "")) = [] →
      synthesizeDescription "" cmds = "") ∧
    (3 < (cmds.filter (fun c => c.name != "")).length →
      synthesizeDescription "" cmds =
        "Executes: " ++ String.intercalate ", "
            (((cmds.filter (fun c => c.name != "")).map SubCommand.name).take 3) ++
          " and " ++
          toString ((cmds.filter (fun c => c.name != "")).length - 3) ++
          " more commands") := by
  refine ⟨?_, ?_, ?_⟩
  · unfold synthesizeDescription
    rw [List.filter_filter]
    simp only [Bool.and_self]
    cases hc : cmds with
    | nil => rfl
    | cons a l =>
      cases hful : ((a :: l).filter (fun c => c.name != "")) with
      | nil => simp [hful]
      | cons b m => simp [hful]
  · intro h
    unfold synthesizeDescription
    simp [h]
  · intro h
    have hne : cmds.isEmpty = false := by
      cases cmds with
      | nil => simp at h
      | cons a l => rfl
    have hfne : ((cmds.filter (fun c => c.name != "")).map SubCommand.name).isEmpty
        = false := by
      cases hful : cmds.filter (fun c => c.name != "") with
      | nil => rw [hful] at h; simp at h
      | cons b m => rfl
    have hgt : ¬ ((cmds.filter (fun c => c.name != "")).map SubCommand.name).length ≤ 3 := by
      rw [List.length_map]
      omega
    unfold synthesizeDescription
    simp only [hne, hfne, Bool.not_false, Bool.and_self, if_true, if_neg hgt,
      List.length_map]
    simp
    intro hc
    exact absurd hc (by omega)

/-- C10 witness: an unnamed command is excluded from both the listed names
and the count (five commands, four named, give N = 1), and a list with no
named command synthesizes nothing. -/
theorem description_ignores_unnamed_witness :
    synthesizeDescription "" mixedCmds =
      "Executes: Solo, Mute, Undo and 1 more commands" ∧
    synthesizeDescription "" [(⟨"", []⟩ : SubCommand)] = "" := by
  constructor
  · rw [(description_ignores_unnamed mixedCmds).2.2 (by decide)]
    decide
  · exact (description_ignores_unnamed [⟨"", []⟩]).2.1 (by decide)

/-! ## Claim about upload validation -/

theorem clean_file_validate_some_not_structural (root : Elem)
    (htag : root.tag = "KeyCommands") :
    clean_file_validate (some root) = .error .noData ∨
      clean_file_validate (some root) = .ok () := by
  unfold clean_file_validate
  dsimp only
  rw [if_neg (by simp [htag])]
  by_cases h1 : ((descFind (isNamedList "Macros") root).isNone
      && (descFind (isNamedList "Categories") root).isNone) = true
  · left
    rw [if_pos h1]
  · rw [if_neg h1]
    by_cases h2 : itemsFound root = true
    · right
      rw [if_pos h2]
    · left
      rw [if_neg h2]

/-- C6: uploaded-text validation fails with the malformed-XML error
exactly when the text is not well-formed XML (the `ET.fromstring`
boundary, `none`), fails with the schema error exactly when the text is
well-formed but the root tag is not "KeyCommands", and raises neither
error on any well-formed input whose root tag is "KeyCommands". -/
theorem upload_validation_errors (p : Option Elem) :
    (clean_file_validate p = .error .malformedXml ↔ p = none) ∧
    (clean_file_validate p = .error .schema ↔
      ∃ root, p = some root ∧ root.tag ≠ "KeyCommands") ∧
    (∀ root, p = some root → root.tag = "KeyCommands" →
      clean_file_validate p ≠ .error .malformedXml ∧
      clean_file_validate p ≠ .error .schema) := by
  cases p with
  | none =>
    refine ⟨by simp [clean_file_validate], by simp [clean_file_validate], ?_⟩
    intro root hroot
    cases hroot
  | some root =>
    by_cases htag : root.tag = "KeyCommands"
    · have hnd := clean_file_validate_some_not_structural root htag
      refine ⟨?_, ?_, ?_⟩
      · rcases hnd with h | h <;> simp [h]
      · rcases hnd with h | h <;> simp [h, htag]
      · intro root' hroot' _
        cases hroot'
        rcases hnd with h | h <;> simp [h]
    · have hval : clean_file_validate (some root) = .error .schema := by
        unfold clean_file_validate
        dsimp only
        rw [if_pos (by simp [htag])]
      refine ⟨?_, ?_, ?_⟩
      · simp [hval]
      · simp only [hval, true_iff]
        exact ⟨root, rfl, htag⟩
      · intro root' hroot' htag'
        cases hroot'
        exact absurd htag' htag

/-- C6 witness: a well-formed document with root tag "KeyCommands" is
rejected with neither the malformed-XML error nor the schema error. -/
theorem upload_validation_errors_witness :
    clean_file_validate (some emptyDoc) ≠ .error .malformedXml ∧
    clean_file_validate (some emptyDoc) ≠ .error .schema :=
  (upload_validation_errors (some emptyDoc)).2.2 emptyDoc rfl rfl

/-! ## Claim C8: content round-trip through the standalone generator -/

theorem synthRef_tag (nm : String) : (synthRef nm).tag = "item" := rfl

theorem nameOf_synthRef (nm : String) : nameOf (synthRef nm) = some nm := rfl

theorem extractBindings_synthRef (nm : String) : extractBindings (synthRef nm) = [] := rfl

theorem extractMacroItem_tag (e : Elem) (x : String × List SubCommand)
    (h : extractMacroItem e = some x) : e.tag = "item" := by
  by_contra hc
  unfold extractMacroItem at h
  rw [if_pos (by simp [hc])] at h
  cases h

theorem extractRecords_single (e : Elem) (n : String) (cmds : List SubCommand)
    (h : extractMacroItem e = some (n, cmds)) :
    extractRecords (newMacrosList [e]) =
      ([{ name := n
          description := synthesizeDescription (explicitDescription e) cmds
          commands := cmds
          key_bindings := []
          xml_snippet := .good e
          reference_snippet := .absent }], 0) := by
  have ht : (e.tag == "item") = true := by simp [extractMacroItem_tag e _ h]
  unfold extractRecords
  rw [show (newMacrosList [e]).children = [e] from rfl,
    List.filter_cons_of_pos (p := fun c => c.tag == "item") (a := e) ht,
    List.filter_nil, List.foldl_cons, List.foldl_nil, h]
  rfl

theorem refElem_facts (r : MacroRecord) (hwf : wellFormedRecord r = true) :
    (refElem r).tag = "item" ∧ nameOf (refElem r) = some r.name ∧
      extractBindings (refElem r) = r.key_bindings := by
  have href := (Bool.and_eq_true _ _ |>.mp hwf).2
  cases hr : r.reference_snippet with
  | good f =>
    rw [hr] at href
    simp only [Bool.and_eq_true, beq_iff_eq] at href
    simp only [refElem, hr]
    exact ⟨href.1.1, href.1.2, href.2⟩
  | absent =>
    rw [hr] at href
    exact ⟨by simp [refElem, hr, synthRef_tag],
      by simp [refElem, hr, nameOf_synthRef],
      by simp [refElem, hr, extractBindings_synthRef, List.isEmpty_iff.mp href]⟩
  | bad =>
    rw [hr] at href
    exact ⟨by simp [refElem, hr, synthRef_tag],
      by simp [refElem, hr, nameOf_synthRef],
      by simp [refElem, hr, extractBindings_synthRef, List.isEmpty_iff.mp href]⟩

/-- C8: content round-trip — for every record carrying a definition
snippet (one that, per the §3 record invariant, re-parses to its own
definition node, with the reference snippet likewise consistent), parsing
the standalone document generated from the single-record list [r] yields
exactly one record, with name, key_bindings and ordered commands identical
to those of r. -/
theorem standalone_roundtrip (r : MacroRecord) (e : Elem)
    (hdef : r.xml_snippet = .good e) (hwf : wellFormedRecord r = true) :
    ∃ rec : MacroRecord,
      parseTree (generate_standalone [r]) = .ok ([rec], 0) ∧
      rec.name = r.name ∧ rec.key_bindings = r.key_bindings ∧
      rec.commands = r.commands := by
  have hext : extractMacroItem e = some (r.name, r.commands) := by
    have h1 := (Bool.and_eq_true _ _ |>.mp hwf).1
    rw [hdef] at h1
    exact beq_iff_eq.mp h1
  obtain ⟨hrt, hrn, hrb⟩ := refElem_facts r hwf
  have hgen : generate_standalone [r] =
      .mk "KeyCommands" []
        [newMacrosList [e],
         .mk "list" [("name", "Categories"), ("type", "list")]
           [newMacroItem [refElem r]]] := by
    simp [generate_standalone, newMacrosList, defElem, hdef]
  have hfm : (generate_standalone [r]).children.find? (isNamedList "Macros") =
      some (newMacrosList [e]) := by
    rw [hgen]
    simp only [Elem.children_mk]
    rw [List.find?_cons_of_pos _ (isNamedList_newMacrosList _)]
  have hfc : (generate_standalone [r]).children.find? (isNamedList "Categories") =
      some (.mk "list" [("name", "Categories"), ("type", "list")]
        [newMacroItem [refElem r]]) := by
    rw [hgen]
    simp only [Elem.children_mk]
    rw [List.find?_cons_of_neg _ (by
        rw [isNamedList_newMacrosList_other "Categories" _ (by decide)]
        simp),
      List.find?_cons_of_pos _ (by rfl)]
  refine ⟨{ name := r.name
            description := synthesizeDescription (explicitDescription e) r.commands
            commands := r.commands
            key_bindings := r.key_bindings
            xml_snippet := .good e
            reference_snippet := .good (refElem r) }, ?_, rfl, rfl, rfl⟩
  unfold parseTree
  rw [hfm]
  dsimp only
  rw [extractRecords_single e r.name r.commands hext]
  dsimp only
  unfold resolveRecords
  rw [hfc]
  dsimp only
  rw [Elem.children_mk, List.find?_cons_of_pos _ (isMacroItem_newMacroItem _)]
  dsimp only
  rw [find?_commands_newMacroItem]
  dsimp only
  simp only [List.map_cons, List.map_nil]
  rw [show (newCommandsList [refElem r]).children = [refElem r] from rfl,
    List.filter_cons_of_pos (p := fun c => c.tag == "item") (a := refElem r)
      (by simp [hrt]),
    List.filter_nil,
    List.filter_cons_of_pos (a := refElem r) (by simp [hrn]), List.filter_nil]
  simp [hrb]

theorem standalone_roundtrip_witness :
    rtRec.xml_snippet = .good rtDefItem ∧ wellFormedRecord rtRec = true ∧
    ∃ rec : MacroRecord,
      parseTree (generate_standalone [rtRec]) = .ok ([rec], 0) ∧
      rec.name = rtRec.name ∧ rec.key_bindings = rtRec.key_bindings ∧
      rec.commands = rtRec.commands :=
  ⟨rfl, by decide, standalone_roundtrip rtRec rtDefItem rfl (by decide)⟩
